import Mathlib

/-!
Shallow embedding of the pull-request review service
(`internal/model`, `internal/service`, `internal/repository` of the Go
repository).  The relational store is modelled as an in-memory state
(`StoreState`): tables become lists of rows keyed by their primary key,
`SELECT ... WHERE pk = $1` becomes `List.find?`, and the transaction
wrapper `WithTransaction` becomes explicit state passing where an error
returns the original state (rollback).  Wall-clock time (`time.Now()`,
the database `now()` default for `created_at`) is passed explicitly as a
`Nat` parameter, and the random shuffle performed by `rand.Shuffle`
inside `selectRandom` is passed explicitly as a function
`σ : List String → List String`; theorems that depend on it assume only
that `σ` permutes its argument, which is exactly what a shuffle does.
-/

namespace ReviewService

/-- Status of a pull request, from `model.PRStatus` (`PROpen`, `PRMerged`). -/
inductive PRStatus where
  | Open : PRStatus
  | Merged : PRStatus
deriving DecidableEq, Repr

/-- A row of the `users` table, from `model.User`. -/
structure User where
  userID : String
  username : String
  teamName : String
  isActive : Bool
deriving DecidableEq, Repr

/-- A member as given in a team-creation request, from `model.TeamMember`. -/
structure TeamMember where
  userID : String
  username : String
  isActive : Bool
deriving DecidableEq, Repr

/-- A team-creation payload, from `model.Team`. -/
structure Team where
  teamName : String
  members : List TeamMember
deriving DecidableEq, Repr

/-- A row of the `pull_requests` table, from `model.PullRequest`.
Timestamps are `Option Nat` matching the Go `*time.Time` pointers. -/
structure PullRequest where
  id : String
  name : String
  authorID : String
  status : PRStatus
  assignedReviewers : List String
  createdAt : Option Nat
  mergedAt : Option Nat
deriving DecidableEq, Repr

/-- The durable state of the relational store: the `teams`, `users` and
`pull_requests` tables. -/
structure StoreState where
  teams : List String
  users : List User
  prs : List PullRequest
deriving DecidableEq, Repr

/-- Repository-level errors, from `repository.ErrNotFound` /
`repository.ErrAlreadyExists`. -/
inductive RepoError where
  | NotFound : RepoError
  | AlreadyExists : RepoError
deriving DecidableEq, Repr

/-- Domain errors, from `model.Err*`. -/
inductive DomainError where
  | NotFound : DomainError
  | TeamExists : DomainError
  | PRExists : DomainError
  | PRMerged : DomainError
  | NotAssigned : DomainError
  | NoCandidate : DomainError
  | Internal : DomainError
deriving DecidableEq, Repr

/-- Errors that may flow out of a transaction body: either a repository
error or a domain error raised by the service logic itself. -/
inductive TxError where
  | repo : RepoError → TxError
  | dom : DomainError → TxError
deriving DecidableEq, Repr

/-- Translation of `service.mapError`: domain errors pass through,
`repository.ErrNotFound` becomes `model.ErrNotFound`, and anything else
(`repository.ErrAlreadyExists` reaching this point) is an unclassified
internal error — the callers that can produce it check for it first. -/
def mapError : TxError → DomainError
  | .dom e => e
  | .repo .NotFound => .NotFound
  | .repo .AlreadyExists => .Internal

/-- Lookup of a user row by primary key (`SELECT ... FROM users WHERE
user_id = $1`). -/
def findUser (users : List User) (userID : String) : Option User :=
  users.find? (fun u => u.userID == userID)

/-- Lookup of a pull-request row by primary key. -/
def findPR (prs : List PullRequest) (prID : String) : Option PullRequest :=
  prs.find? (fun p => p.id == prID)

/-- Translation of the repository's `GetUserByID` (via `getUser`):
`pgx.ErrNoRows` is mapped to `ErrNotFound` by `handleError`. -/
def getUserByID (s : StoreState) (userID : String) : Except TxError User :=
  match findUser s.users userID with
  | some u => .ok u
  | none => .error (.repo .NotFound)

/-- Translation of the repository's `ListTeamMembers`
(`SELECT ... FROM users WHERE team_name = $1`). -/
def listTeamMembers (s : StoreState) (teamName : String) : List User :=
  s.users.filter (fun u => u.teamName == teamName)

/-- Translation of the repository's `GetPRByIDForUpdate` (`fetchPR` with
`FOR UPDATE`): the lock itself is the store's concurrency mechanism; the
returned value is the current row or `ErrNotFound`. -/
def getPRByIDForUpdate (s : StoreState) (prID : String) : Except TxError PullRequest :=
  match findPR s.prs prID with
  | some pr => .ok pr
  | none => .error (.repo .NotFound)

/-- Translation of the repository's `CreatePR`: the insert violates the
primary-key constraint if the id exists (`ErrAlreadyExists`) and the
author foreign key if the author is absent (mapped to `ErrNotFound` by
`handleError`); on success the store assigns `created_at` and the row is
returned with it set (the Go code scans `created_at` back into `pr`). -/
def createPR (s : StoreState) (pr : PullRequest) (now : Nat) :
    Except TxError (StoreState × PullRequest) :=
  if (findPR s.prs pr.id).isSome then .error (.repo .AlreadyExists)
  else if (findUser s.users pr.authorID).isNone then .error (.repo .NotFound)
  else
    let row := { pr with createdAt := some now }
    .ok ({ s with prs := s.prs ++ [row] }, row)

/-- Translation of the repository's `UpdatePR`: `UPDATE pull_requests
SET status = $2, assigned_reviewers = $3, merged_at = $4 WHERE
pull_request_id = $1 RETURNING ...` — only those three columns change;
id, name, author and `created_at` are taken from the stored row. -/
def updatePR (s : StoreState) (pr : PullRequest) :
    Except TxError (StoreState × PullRequest) :=
  match findPR s.prs pr.id with
  | none => .error (.repo .NotFound)
  | some cur =>
    let row := { cur with
                 status := pr.status
                 assignedReviewers := pr.assignedReviewers
                 mergedAt := pr.mergedAt }
    .ok ({ s with prs := s.prs.map (fun p => if p.id == pr.id then row else p) }, row)

/-- One step of the member batch in `CreateTeamTx`: `INSERT INTO users
... ON CONFLICT (user_id) DO UPDATE SET username = ..., is_active = ...,
team_name = ...` — an upsert that reassigns an existing user id to the
new team. -/
def upsertUser (users : List User) (teamName : String) (m : TeamMember) : List User :=
  let row : User := { userID := m.userID, username := m.username,
                      teamName := teamName, isActive := m.isActive }
  if users.any (fun u => u.userID == m.userID) then
    users.map (fun u => if u.userID == m.userID then row else u)
  else
    users ++ [row]

/-- Translation of the repository's `CreateTeamTx`: insert the team row
(unique violation if the name exists, rolled back with no member
change), then upsert each member in order, then commit. -/
def createTeamTx (s : StoreState) (team : Team) : Except RepoError StoreState :=
  if s.teams.contains team.teamName then .error .AlreadyExists
  else
    .ok { s with
          teams := s.teams ++ [team.teamName]
          users := team.members.foldl (fun us m => upsertUser us team.teamName m) s.users }

/-- Translation of the repository's `SetUserActiveStatus` (`UPDATE users
SET is_active = $2 WHERE user_id = $1 RETURNING ...`). -/
def setUserActiveStatusRepo (s : StoreState) (userID : String) (isActive : Bool) :
    Except TxError (StoreState × User) :=
  match findUser s.users userID with
  | none => .error (.repo .NotFound)
  | some u =>
    let row := { u with isActive := isActive }
    .ok ({ s with users := s.users.map (fun v => if v.userID == userID then row else v) }, row)

/-- Translation of `service.activeReviewers`: keep the id of every
member that is active and is neither the author nor in the exclusion
list (the Go code builds `excludeSet` from `authorID` and `exclude`). -/
def activeReviewers (users : List User) (authorID : String) (exclude : List String) :
    List String :=
  (users.filter (fun u =>
      u.isActive && u.userID != authorID && !(exclude.contains u.userID))).map
    (fun u => u.userID)

/-- Translation of `service.selectRandom`: if at most `limit` candidates
remain, return them all (as a fresh copy); otherwise shuffle and take
the first `limit`.  The shuffle performed by `rand.Shuffle` is the
explicit parameter `σ`. -/
def selectRandom (ids : List String) (limit : Nat) (σ : List String → List String) :
    List String :=
  if ids.length ≤ limit then ids else (σ ids).take limit

/-- Translation of `service.isReviewerAssigned`. -/
def isReviewerAssigned (reviewers : List String) (userID : String) : Bool :=
  reviewers.contains userID

/-- Translation of the replacement loop in `ReassignReviewer`: replace
the first occurrence of `old` by `new` and stop (`break`). -/
def replaceFirst : List String → String → String → List String
  | [], _, _ => []
  | r :: rest, old, new =>
    if r == old then new :: rest else r :: replaceFirst rest old new

/-- Translation of `service.activeReviewersFromTeam`: list the members
of `teamName` and filter with the author and `currentReviewers ++
[oldUserID]` excluded. -/
def activeReviewersFromTeam (s : StoreState) (teamName authorID oldUserID : String)
    (currentReviewers : List String) : List String :=
  activeReviewers (listTeamMembers s teamName) authorID (currentReviewers ++ [oldUserID])

/-- Translation of `service.CreateTeam`: run `CreateTeamTx`, mapping
`ErrAlreadyExists` to `ErrTeamExists` and other errors via `mapError`. -/
def createTeam (s : StoreState) (team : Team) : StoreState × Except DomainError Unit :=
  match createTeamTx s team with
  | .ok s' => (s', .ok ())
  | .error .AlreadyExists => (s, .error .TeamExists)
  | .error .NotFound => (s, .error .NotFound)

/-- Translation of `service.SetUserActiveStatus`. -/
def setUserActiveStatus (s : StoreState) (userID : String) (isActive : Bool) :
    StoreState × Except DomainError User :=
  match setUserActiveStatusRepo s userID isActive with
  | .ok (s', u) => (s', .ok u)
  | .error e => (s, .error (mapError e))

/-- Transaction body of `service.CreatePullRequest`: look up the author,
list the author's team, compute candidates excluding only the author,
pick up to two reviewers, and insert the pull request with status OPEN. -/
def createPullRequestBody (s : StoreState) (prID prName authorID : String)
    (σ : List String → List String) (now : Nat) :
    Except TxError (StoreState × PullRequest) :=
  match getUserByID s authorID with
  | .error e => .error e
  | .ok author =>
    let teamMembers := listTeamMembers s author.teamName
    let candidates := activeReviewers teamMembers authorID []
    let pr : PullRequest :=
      { id := prID, name := prName, authorID := authorID, status := .Open,
        assignedReviewers := selectRandom candidates 2 σ,
        createdAt := none, mergedAt := none }
    createPR s pr now

/-- Translation of `service.CreatePullRequest`: run the body in a
transaction (error ⇒ rollback to the original state), mapping
`ErrAlreadyExists` to `ErrPRExists` and other errors via `mapError`. -/
def createPullRequest (s : StoreState) (prID prName authorID : String)
    (σ : List String → List String) (now : Nat) :
    StoreState × Except DomainError PullRequest :=
  match createPullRequestBody s prID prName authorID σ now with
  | .error (.repo .AlreadyExists) => (s, .error .PRExists)
  | .error e => (s, .error (mapError e))
  | .ok (s', row) => (s', .ok row)

/-- Transaction body of `service.MergePullRequest`: locked read; if
already merged return the current row with no write; otherwise set
status MERGED and the merge timestamp and persist. -/
def mergePullRequestBody (s : StoreState) (prID : String) (now : Nat) :
    Except TxError (StoreState × PullRequest) :=
  match getPRByIDForUpdate s prID with
  | .error e => .error e
  | .ok current =>
    if current.status = .Merged then .ok (s, current)
    else
      updatePR s { current with status := .Merged, mergedAt := some now }

/-- Translation of `service.MergePullRequest`. -/
def mergePullRequest (s : StoreState) (prID : String) (now : Nat) :
    StoreState × Except DomainError PullRequest :=
  match mergePullRequestBody s prID now with
  | .error e => (s, .error (mapError e))
  | .ok (s', pr) => (s', .ok pr)

/-- Transaction body of `service.ReassignReviewer`: locked read, merged
check, old-user lookup, assignment check, candidate computation from the
old user's team excluding the author and every current reviewer
(including the old one), selection of one replacement, in-place
replacement of the matching entry, persist. -/
def reassignReviewerBody (s : StoreState) (prID oldUserID : String)
    (σ : List String → List String) :
    Except TxError (StoreState × PullRequest × String) :=
  match getPRByIDForUpdate s prID with
  | .error e => .error e
  | .ok current =>
    if current.status = .Merged then .error (.dom .PRMerged)
    else
      match getUserByID s oldUserID with
      | .error e => .error e
      | .ok oldUser =>
        if !(isReviewerAssigned current.assignedReviewers oldUserID) then
          .error (.dom .NotAssigned)
        else
          let candidates := activeReviewersFromTeam s oldUser.teamName current.authorID
              oldUserID current.assignedReviewers
          match selectRandom candidates 1 σ with
          | [] => .error (.dom .NoCandidate)
          | replacedBy :: _ =>
            let newReviewers := replaceFirst current.assignedReviewers oldUserID replacedBy
            match updatePR s { current with assignedReviewers := newReviewers } with
            | .error e => .error e
            | .ok (s', updated) => .ok (s', updated, replacedBy)

/-- Translation of `service.ReassignReviewer`. -/
def reassignReviewer (s : StoreState) (prID oldUserID : String)
    (σ : List String → List String) :
    StoreState × Except DomainError (PullRequest × String) :=
  match reassignReviewerBody s prID oldUserID σ with
  | .error e => (s, .error (mapError e))
  | .ok (s', pr, replacedBy) => (s', .ok (pr, replacedBy))

/-- A state-changing operation of the public API, for statements
quantifying over whole operation sequences. -/
inductive Op where
  | createTeam (team : Team) : Op
  | setUserActive (userID : String) (isActive : Bool) : Op
  | createPR (prID prName authorID : String)
      (σ : List String → List String) (now : Nat) : Op
  | mergePR (prID : String) (now : Nat) : Op
  | reassign (prID oldUserID : String) (σ : List String → List String) : Op

/-- The store state after one public-API operation. -/
def applyOp (s : StoreState) : Op → StoreState
  | .createTeam team => (createTeam s team).1
  | .setUserActive userID isActive => (setUserActiveStatus s userID isActive).1
  | .createPR prID prName authorID σ now => (createPullRequest s prID prName authorID σ now).1
  | .mergePR prID now => (mergePullRequest s prID now).1
  | .reassign prID oldUserID σ => (reassignReviewer s prID oldUserID σ).1

/-! ### Helper lemmas about the store primitives -/

/-- A row found under a key carries that key. -/
theorem findPR_id {prs : List PullRequest} {prID : String} {p : PullRequest}
    (h : findPR prs prID = some p) : p.id = prID := by
  have := List.find?_some h
  simpa using this

/-- A row found under a key is a member of the table. -/
theorem findPR_mem {prs : List PullRequest} {prID : String} {p : PullRequest}
    (h : findPR prs prID = some p) : p ∈ prs :=
  List.mem_of_find?_eq_some h

/-- A user row found under a key carries that key. -/
theorem findUser_id {users : List User} {userID : String} {u : User}
    (h : findUser users userID = some u) : u.userID = userID := by
  have := List.find?_some h
  simpa using this

/-- After overwriting all rows with a given key by `row` (which carries
that key), looking the key up yields `row`, provided the key was
present. -/
theorem findPR_map_update {prs : List PullRequest} {prID : String}
    {cur row : PullRequest} (hrow : row.id = prID)
    (h : findPR prs prID = some cur) :
    findPR (prs.map (fun p => if p.id == prID then row else p)) prID = some row := by
  induction prs with
  | nil => simp [findPR] at h
  | cons p rest ih =>
    rw [List.map_cons]
    by_cases hp : p.id = prID
    · have hcond : (if p.id == prID then row else p) = row := by simp [hp]
      rw [findPR, hcond, List.find?_cons_of_pos _ (by simp [hrow])]
    · have h' : findPR rest prID = some cur := by
        rw [findPR, List.find?_cons_of_neg _ (by simp [hp])] at h
        exact h
      have hcond : (if p.id == prID then row else p) = p := by simp [hp]
      rw [findPR, hcond, List.find?_cons_of_neg _ (by simp [hp])]
      exact ih h'

/-- Looking up a different key is unaffected by overwriting rows keyed
`prID` with a row keyed `prID`. -/
theorem findPR_map_update_ne {prs : List PullRequest} {prID otherID : String}
    {row : PullRequest} (hrow : row.id = prID) (hne : otherID ≠ prID) :
    findPR (prs.map (fun p => if p.id == prID then row else p)) otherID =
      findPR prs otherID := by
  induction prs with
  | nil => simp [findPR]
  | cons p rest ih =>
    rw [List.map_cons]
    by_cases hp : p.id = prID
    · have hro : ¬ row.id = otherID := by rw [hrow]; exact fun hh => hne hh.symm
      have hpo : ¬ p.id = otherID := by rw [hp]; exact fun hh => hne hh.symm
      have hcond : (if p.id == prID then row else p) = row := by simp [hp]
      rw [findPR, hcond, List.find?_cons_of_neg _ (by simp [hro]), findPR,
        List.find?_cons_of_neg _ (by simp [hpo])]
      exact ih
    · have hcond : (if p.id == prID then row else p) = p := by simp [hp]
      by_cases hpo : p.id = otherID
      · rw [findPR, hcond, List.find?_cons_of_pos _ (by simp [hpo]), findPR,
          List.find?_cons_of_pos _ (by simp [hpo])]
      · rw [findPR, hcond, List.find?_cons_of_neg _ (by simp [hpo]), findPR,
          List.find?_cons_of_neg _ (by simp [hpo])]
        exact ih

/-! ### Behaviour of the merge transaction -/

/-- Merging a pull request that is already MERGED commits no write and
returns the stored row. -/
theorem mergePullRequest_merged {s : StoreState} {prID : String} (now : Nat)
    {pr : PullRequest} (h : findPR s.prs prID = some pr)
    (hm : pr.status = .Merged) :
    mergePullRequest s prID now = (s, .ok pr) := by
  simp [mergePullRequest, mergePullRequestBody, getPRByIDForUpdate, h, hm]

/-- Merging an OPEN pull request updates exactly its row, setting status
MERGED and the merge timestamp. -/
theorem mergePullRequest_open {s : StoreState} {prID : String} (now : Nat)
    {pr : PullRequest} (h : findPR s.prs prID = some pr)
    (hopen : pr.status = .Open) :
    mergePullRequest s prID now =
      ({ s with prs := s.prs.map (fun p =>
           if p.id == prID then { pr with status := .Merged, mergedAt := some now } else p) },
       .ok { pr with status := .Merged, mergedAt := some now }) := by
  have hid : pr.id = prID := findPR_id h
  have hfind : findPR s.prs
      ({ pr with status := PRStatus.Merged, mergedAt := some now } : PullRequest).id =
      some pr := by
    show findPR s.prs pr.id = some pr
    rw [hid]; exact h
  simp [mergePullRequest, mergePullRequestBody, getPRByIDForUpdate, h, hopen,
    updatePR, hfind, hid]

/-- Concrete store used to instantiate theorems: one team `backend`
with active users `u1`, `u2`, `u3` and one OPEN pull request `pr1`
authored by `u1` with reviewer `u2`. -/
def sampleStore : StoreState :=
  { teams := ["backend"]
    users := [{ userID := "u1", username := "alice", teamName := "backend", isActive := true },
              { userID := "u2", username := "bob", teamName := "backend", isActive := true },
              { userID := "u3", username := "carol", teamName := "backend", isActive := true }]
    prs := [{ id := "pr1", name := "feat", authorID := "u1", status := .Open,
              assignedReviewers := ["u2"], createdAt := some 5, mergedAt := none }] }

/-- C1: `MergePullRequest` is idempotent: on an already-MERGED pull
request it returns the current state unchanged, with no error and no
change of the merge timestamp; hence two successive calls on any
existing pull request return the same status and the same `mergedAt`
(the second call also leaves the store untouched). -/
theorem merge_idempotent :
    (∀ (s : StoreState) (prID : String) (now : Nat) (pr : PullRequest),
        findPR s.prs prID = some pr → pr.status = .Merged →
        mergePullRequest s prID now = (s, .ok pr)) ∧
    (∀ (s : StoreState) (prID : String) (t1 t2 : Nat) (pr : PullRequest),
        findPR s.prs prID = some pr →
        ∃ s1 pr1 pr2,
          mergePullRequest s prID t1 = (s1, .ok pr1) ∧
          mergePullRequest s1 prID t2 = (s1, .ok pr2) ∧
          pr2 = pr1 ∧ pr2.status = pr1.status ∧ pr2.mergedAt = pr1.mergedAt) := by
  constructor
  · intro s prID now pr h hm
    exact mergePullRequest_merged now h hm
  · intro s prID t1 t2 pr h
    cases hstat : pr.status with
    | Merged =>
      exact ⟨s, pr, pr, mergePullRequest_merged t1 h hstat,
        mergePullRequest_merged t2 h hstat, rfl, rfl, rfl⟩
    | Open =>
      have h1 := mergePullRequest_open t1 h hstat
      set m : PullRequest := { pr with status := .Merged, mergedAt := some t1 } with hm
      set s1 : StoreState :=
        { s with prs := s.prs.map (fun p => if p.id == prID then m else p) } with hs1
      have hmid : m.id = prID := by rw [hm]; show pr.id = prID; exact findPR_id h
      have hfind1 : findPR s1.prs prID = some m := findPR_map_update hmid h
      have h2 := mergePullRequest_merged t2 hfind1 (by simp [hm])
      exact ⟨s1, m, m, h1, h2, rfl, rfl, rfl⟩

/-- Variant of `sampleStore` in which `pr1` is already MERGED at time 7. -/
def sampleMergedPR : PullRequest :=
  { id := "pr1", name := "feat", authorID := "u1", status := .Merged,
    assignedReviewers := ["u2"], createdAt := some 5, mergedAt := some 7 }

/-- Store holding only the already-merged `pr1`. -/
def sampleMergedStore : StoreState :=
  { teams := sampleStore.teams, users := sampleStore.users, prs := [sampleMergedPR] }

/-- Closed instance of `merge_idempotent` on `sampleStore`. -/
theorem merge_idempotent_witness :
    mergePullRequest sampleMergedStore "pr1" 9 = (sampleMergedStore, .ok sampleMergedPR) ∧
    (∃ s1 pr1 pr2,
        mergePullRequest sampleStore "pr1" 7 = (s1, .ok pr1) ∧
        mergePullRequest s1 "pr1" 9 = (s1, .ok pr2) ∧
        pr2 = pr1 ∧ pr2.status = pr1.status ∧ pr2.mergedAt = pr1.mergedAt) :=
  ⟨merge_idempotent.1 sampleMergedStore "pr1" 9 sampleMergedPR (by decide) (by decide),
   merge_idempotent.2 sampleStore "pr1" 7 9
     { id := "pr1", name := "feat", authorID := "u1", status := .Open,
       assignedReviewers := ["u2"], createdAt := some 5, mergedAt := none } (by decide)⟩

/-- C10: frame of merge — on an OPEN pull request, merging changes only
the status (to MERGED) and the merge timestamp; identifier, name,
author, reviewer list and creation timestamp of the stored and returned
row are unchanged, other pull requests are untouched, and the `users`
and `teams` tables are untouched. -/
theorem merge_frame (s : StoreState) (prID : String) (now : Nat) (pr : PullRequest)
    (h : findPR s.prs prID = some pr) (hopen : pr.status = .Open) :
    ∃ s' m, mergePullRequest s prID now = (s', .ok m) ∧
      m.status = .Merged ∧ m.mergedAt = some now ∧
      m.id = pr.id ∧ m.name = pr.name ∧ m.authorID = pr.authorID ∧
      m.assignedReviewers = pr.assignedReviewers ∧ m.createdAt = pr.createdAt ∧
      findPR s'.prs prID = some m ∧
      (∀ otherID, otherID ≠ prID → findPR s'.prs otherID = findPR s.prs otherID) ∧
      s'.users = s.users ∧ s'.teams = s.teams := by
  have h1 := mergePullRequest_open now h hopen
  set m : PullRequest := { pr with status := .Merged, mergedAt := some now } with hm
  set s1 : StoreState :=
    { s with prs := s.prs.map (fun p => if p.id == prID then m else p) } with hs1
  have hmid : m.id = prID := by rw [hm]; show pr.id = prID; exact findPR_id h
  refine ⟨s1, m, h1, rfl, rfl, rfl, rfl, rfl, rfl, rfl,
    findPR_map_update hmid h, ?_, rfl, rfl⟩
  intro otherID hne
  exact findPR_map_update_ne hmid hne

/-- Closed instance of `merge_frame` on `sampleStore`. -/
theorem merge_frame_witness :
    ∃ s' m, mergePullRequest sampleStore "pr1" 7 = (s', .ok m) ∧
      m.status = .Merged ∧ m.mergedAt = some 7 ∧
      m.id = "pr1" ∧ m.name = "feat" ∧ m.authorID = "u1" ∧
      m.assignedReviewers = ["u2"] ∧ m.createdAt = some 5 ∧
      findPR s'.prs "pr1" = some m ∧
      (∀ otherID, otherID ≠ "pr1" → findPR s'.prs otherID = findPR sampleStore.prs otherID) ∧
      s'.users = sampleStore.users ∧ s'.teams = sampleStore.teams := by
  have := merge_frame sampleStore "pr1" 7
      { id := "pr1", name := "feat", authorID := "u1", status := .Open,
        assignedReviewers := ["u2"], createdAt := some 5, mergedAt := none }
      (by decide) (by decide)
  simpa using this

/-- Store with a two-member team, so that reassigning the only reviewer
has no candidate. -/
def sampleSmallStore : StoreState :=
  { teams := ["small"]
    users := [{ userID := "u1", username := "alice", teamName := "small", isActive := true },
              { userID := "u2", username := "bob", teamName := "small", isActive := true }]
    prs := [{ id := "pr1", name := "feat", authorID := "u1", status := .Open,
              assignedReviewers := ["u2"], createdAt := some 5, mergedAt := none }] }

/-- C3: every failure mode of `ReassignReviewer` — `NotFound` when the
pull request or the old user is absent, `AlreadyMerged` (`ErrPRMerged`)
when the pull request is MERGED, `NotAssigned` when the old user exists
but is not among the assigned reviewers, `NoCandidate` when no eligible
replacement exists — returns the store unchanged (the transaction rolls
back, no partial write). -/
theorem reassign_error_cases :
    (∀ (s : StoreState) (prID oldUserID : String) (σ : List String → List String),
        findPR s.prs prID = none →
        reassignReviewer s prID oldUserID σ = (s, .error .NotFound)) ∧
    (∀ (s : StoreState) (prID oldUserID : String) (σ : List String → List String)
        (pr : PullRequest),
        findPR s.prs prID = some pr → pr.status = .Merged →
        reassignReviewer s prID oldUserID σ = (s, .error .PRMerged)) ∧
    (∀ (s : StoreState) (prID oldUserID : String) (σ : List String → List String)
        (pr : PullRequest),
        findPR s.prs prID = some pr → pr.status = .Open →
        findUser s.users oldUserID = none →
        reassignReviewer s prID oldUserID σ = (s, .error .NotFound)) ∧
    (∀ (s : StoreState) (prID oldUserID : String) (σ : List String → List String)
        (pr : PullRequest) (oldUser : User),
        findPR s.prs prID = some pr → pr.status = .Open →
        findUser s.users oldUserID = some oldUser →
        oldUserID ∉ pr.assignedReviewers →
        reassignReviewer s prID oldUserID σ = (s, .error .NotAssigned)) ∧
    (∀ (s : StoreState) (prID oldUserID : String) (σ : List String → List String)
        (pr : PullRequest) (oldUser : User),
        findPR s.prs prID = some pr → pr.status = .Open →
        findUser s.users oldUserID = some oldUser →
        oldUserID ∈ pr.assignedReviewers →
        activeReviewersFromTeam s oldUser.teamName pr.authorID oldUserID
          pr.assignedReviewers = [] →
        reassignReviewer s prID oldUserID σ = (s, .error .NoCandidate)) := by
  refine ⟨?_, ?_, ?_, ?_, ?_⟩
  · intro s prID oldUserID σ h
    simp [reassignReviewer, reassignReviewerBody, getPRByIDForUpdate, h, mapError]
  · intro s prID oldUserID σ pr h hm
    simp [reassignReviewer, reassignReviewerBody, getPRByIDForUpdate, h, hm, mapError]
  · intro s prID oldUserID σ pr h hopen hu
    simp [reassignReviewer, reassignReviewerBody, getPRByIDForUpdate, getUserByID,
      h, hopen, hu, mapError]
  · intro s prID oldUserID σ pr oldUser h hopen hu hna
    simp [reassignReviewer, reassignReviewerBody, getPRByIDForUpdate, getUserByID,
      isReviewerAssigned, h, hopen, hu, hna, mapError]
  · intro s prID oldUserID σ pr oldUser h hopen hu hass hcand
    simp [reassignReviewer, reassignReviewerBody, getPRByIDForUpdate, getUserByID,
      isReviewerAssigned, h, hopen, hu, hass, hcand, selectRandom, mapError]

/-- Closed instance of `reassign_error_cases`, covering all five error
cases on concrete stores. -/
theorem reassign_error_cases_witness :
    reassignReviewer sampleStore "nope" "u2" id = (sampleStore, .error .NotFound) ∧
    reassignReviewer sampleMergedStore "pr1" "u2" id = (sampleMergedStore, .error .PRMerged) ∧
    reassignReviewer sampleStore "pr1" "ghost" id = (sampleStore, .error .NotFound) ∧
    reassignReviewer sampleStore "pr1" "u3" id = (sampleStore, .error .NotAssigned) ∧
    reassignReviewer sampleSmallStore "pr1" "u2" id = (sampleSmallStore, .error .NoCandidate) :=
  ⟨reassign_error_cases.1 sampleStore "nope" "u2" id (by decide),
   reassign_error_cases.2.1 sampleMergedStore "pr1" "u2" id sampleMergedPR
     (by decide) (by decide),
   reassign_error_cases.2.2.1 sampleStore "pr1" "ghost" id
     { id := "pr1", name := "feat", authorID := "u1", status := .Open,
       assignedReviewers := ["u2"], createdAt := some 5, mergedAt := none }
     (by decide) (by decide) (by decide),
   reassign_error_cases.2.2.2.1 sampleStore "pr1" "u3" id
     { id := "pr1", name := "feat", authorID := "u1", status := .Open,
       assignedReviewers := ["u2"], createdAt := some 5, mergedAt := none }
     { userID := "u3", username := "carol", teamName := "backend", isActive := true }
     (by decide) (by decide) (by decide) (by decide),
   reassign_error_cases.2.2.2.2 sampleSmallStore "pr1" "u2" id
     { id := "pr1", name := "feat", authorID := "u1", status := .Open,
       assignedReviewers := ["u2"], createdAt := some 5, mergedAt := none }
     { userID := "u2", username := "bob", teamName := "small", isActive := true }
     (by decide) (by decide) (by decide) (by decide) (by decide)⟩

/-! ### The candidate selector -/

/-- Membership in the candidate list computed by `activeReviewers`. -/
theorem mem_activeReviewers {users : List User} {authorID : String}
    {exclude : List String} {x : String} :
    x ∈ activeReviewers users authorID exclude ↔
      ∃ u, u ∈ users ∧ u.userID = x ∧ u.isActive = true ∧ x ≠ authorID ∧ x ∉ exclude := by
  simp [activeReviewers, List.mem_filter, Bool.and_eq_true, bne_iff_ne]
  aesop

/-- `selectRandom` returns `min limit (length ids)` entries. -/
theorem selectRandom_length {ids : List String} {limit : Nat}
    {σ : List String → List String} (hσ : (σ ids).Perm ids) :
    (selectRandom ids limit σ).length = min limit ids.length := by
  unfold selectRandom
  split
  · next h => exact (min_eq_right h).symm
  · rw [List.length_take, hσ.length_eq]

/-- Every entry returned by `selectRandom` is one of the candidates. -/
theorem selectRandom_mem {ids : List String} {limit : Nat}
    {σ : List String → List String} (hσ : (σ ids).Perm ids) {x : String}
    (hx : x ∈ selectRandom ids limit σ) : x ∈ ids := by
  unfold selectRandom at hx
  split at hx
  · exact hx
  · exact hσ.mem_iff.mp (List.take_subset _ _ hx)

/-- `selectRandom` draws without replacement: distinct candidates give
distinct entries. -/
theorem selectRandom_nodup {ids : List String} {limit : Nat}
    {σ : List String → List String} (hσ : (σ ids).Perm ids) (h : ids.Nodup) :
    (selectRandom ids limit σ).Nodup := by
  unfold selectRandom
  split
  · exact h
  · exact (hσ.nodup_iff.mpr h).sublist (List.take_sublist _ _)

/-- An empty candidate list gives an empty selection. -/
theorem selectRandom_nil {limit : Nat} {σ : List String → List String} :
    selectRandom [] limit σ = [] := by
  simp [selectRandom]

/-- C6: a member's identifier is in the computed candidate set iff the
member is active and its identifier is neither the author's nor in the
exclusion list; and for reassignment (`activeReviewersFromTeam`) the
exclusion list consists of every currently assigned reviewer together
with the one being replaced, on top of the always-excluded author. -/
theorem candidate_selection :
    (∀ (users : List User) (authorID : String) (exclude : List String) (x : String),
        x ∈ activeReviewers users authorID exclude ↔
          ∃ u, u ∈ users ∧ u.userID = x ∧ u.isActive = true ∧
            x ≠ authorID ∧ x ∉ exclude) ∧
    (∀ (s : StoreState) (teamName authorID oldUserID : String)
        (currentReviewers : List String) (x : String),
        x ∈ activeReviewersFromTeam s teamName authorID oldUserID currentReviewers ↔
          ∃ u, u ∈ listTeamMembers s teamName ∧ u.userID = x ∧ u.isActive = true ∧
            x ≠ authorID ∧ x ∉ currentReviewers ∧ x ≠ oldUserID) := by
  constructor
  · intro users authorID exclude x
    exact mem_activeReviewers
  · intro s teamName authorID oldUserID currentReviewers x
    rw [activeReviewersFromTeam, mem_activeReviewers]
    constructor
    · rintro ⟨u, hu, rfl, hact, hne, hnx⟩
      simp only [List.mem_append, List.mem_singleton, not_or] at hnx
      exact ⟨u, hu, rfl, hact, hne, hnx.1, hnx.2⟩
    · rintro ⟨u, hu, rfl, hact, hne, hncur, hnold⟩
      refine ⟨u, hu, rfl, hact, hne, ?_⟩
      simp only [List.mem_append, List.mem_singleton, not_or]
      exact ⟨hncur, hnold⟩

/-- C7: `selectRandom` returns exactly `min(count, len(candidates))`
entries, all distinct elements of the candidate list (drawn without
replacement), and an empty candidate list yields an empty sequence with
no error.  The random shuffle is universally quantified as any
permutation `σ` of the candidates. -/
theorem selectRandom_contract :
    ∀ (ids : List String) (limit : Nat) (σ : List String → List String),
      (σ ids).Perm ids →
      (selectRandom ids limit σ).length = min limit ids.length ∧
      (∀ x ∈ selectRandom ids limit σ, x ∈ ids) ∧
      (ids.Nodup → (selectRandom ids limit σ).Nodup) ∧
      (ids = [] → selectRandom ids limit σ = []) := by
  intro ids limit σ hσ
  refine ⟨selectRandom_length hσ, fun x hx => selectRandom_mem hσ hx,
    selectRandom_nodup hσ, ?_⟩
  rintro rfl
  exact selectRandom_nil

/-- Closed instance of `selectRandom_contract` with a non-identity
permutation. -/
theorem selectRandom_contract_witness :
    (selectRandom ["a", "b", "c"] 2 List.reverse).length =
      min 2 (["a", "b", "c"] : List String).length ∧
    (∀ x ∈ selectRandom ["a", "b", "c"] 2 List.reverse,
        x ∈ (["a", "b", "c"] : List String)) ∧
    ((["a", "b", "c"] : List String).Nodup →
        (selectRandom ["a", "b", "c"] 2 List.reverse).Nodup) ∧
    ((["a", "b", "c"] : List String) = [] →
        selectRandom ["a", "b", "c"] 2 List.reverse = []) :=
  selectRandom_contract ["a", "b", "c"] 2 List.reverse (by decide)

/-! ### Creation of pull requests -/

/-- Candidate identifiers are distinct whenever the stored user ids are
distinct (primary-key uniqueness of the `users` table). -/
theorem activeReviewers_nodup {users : List User} {authorID : String}
    {exclude : List String} (h : (users.map (fun u => u.userID)).Nodup) :
    (activeReviewers users authorID exclude).Nodup :=
  h.sublist ((List.filter_sublist _).map _)

/-- Team members inherit the distinctness of the stored user ids. -/
theorem listTeamMembers_ids_nodup {s : StoreState}
    (h : (s.users.map (fun u => u.userID)).Nodup) (teamName : String) :
    ((listTeamMembers s teamName).map (fun u => u.userID)).Nodup :=
  h.sublist ((List.filter_sublist _).map _)

/-- Appending a fresh row makes it findable under its key. -/
theorem findPR_append {prs : List PullRequest} {prID : String} {row : PullRequest}
    (hfresh : findPR prs prID = none) (hrow : row.id = prID) :
    findPR (prs ++ [row]) prID = some row := by
  induction prs with
  | nil => simp [findPR, List.find?, hrow]
  | cons p rest ih =>
    by_cases hp : p.id = prID
    · rw [findPR, List.find?_cons_of_pos _ (by simp [hp])] at hfresh
      exact absurd hfresh (by simp)
    · rw [findPR, List.find?_cons_of_neg _ (by simp [hp])] at hfresh
      rw [List.cons_append, findPR, List.find?_cons_of_neg _ (by simp [hp])]
      exact ih hfresh

/-- Successful path of `CreatePullRequest`: author found, id fresh. -/
theorem createPullRequest_success {s : StoreState} {prID prName authorID : String}
    {σ : List String → List String} {now : Nat} {author : User}
    (hauthor : findUser s.users authorID = some author)
    (hfresh : findPR s.prs prID = none) :
    createPullRequest s prID prName authorID σ now =
      ({ s with prs := s.prs ++
          [{ id := prID, name := prName, authorID := authorID, status := .Open,
             assignedReviewers := selectRandom
               (activeReviewers (listTeamMembers s author.teamName) authorID []) 2 σ,
             createdAt := some now, mergedAt := none }] },
       .ok { id := prID, name := prName, authorID := authorID, status := .Open,
             assignedReviewers := selectRandom
               (activeReviewers (listTeamMembers s author.teamName) authorID []) 2 σ,
             createdAt := some now, mergedAt := none }) := by
  simp [createPullRequest, createPullRequestBody, getUserByID, hauthor, createPR, hfresh]

/-- C4: `CreatePullRequest` never fails for lack of candidates: with the
author present and the id fresh it succeeds with status OPEN and
`min 2 |candidates|` reviewers — exactly 2 distinct reviewers when at
least 2 eligible members exist, exactly 1 when exactly 1 exists, and an
empty list (still a success) when none exists; no reviewer equals the
author and every reviewer is an active member of the author's team. -/
theorem create_reviewer_counts (s : StoreState) (prID prName authorID : String)
    (σ : List String → List String) (now : Nat) (author : User)
    (hauthor : findUser s.users authorID = some author)
    (hfresh : findPR s.prs prID = none)
    (hids : (s.users.map (fun u => u.userID)).Nodup)
    (hσ : ∀ l, (σ l).Perm l) :
    ∃ s' row, createPullRequest s prID prName authorID σ now = (s', .ok row) ∧
      row.status = .Open ∧
      row.assignedReviewers.length =
        min 2 (activeReviewers (listTeamMembers s author.teamName) authorID []).length ∧
      (2 ≤ (activeReviewers (listTeamMembers s author.teamName) authorID []).length →
        row.assignedReviewers.length = 2) ∧
      ((activeReviewers (listTeamMembers s author.teamName) authorID []).length = 1 →
        row.assignedReviewers.length = 1) ∧
      ((activeReviewers (listTeamMembers s author.teamName) authorID []).length = 0 →
        row.assignedReviewers = []) ∧
      row.assignedReviewers.Nodup ∧
      authorID ∉ row.assignedReviewers ∧
      (∀ x ∈ row.assignedReviewers,
        ∃ u, u ∈ listTeamMembers s author.teamName ∧ u.userID = x ∧ u.isActive = true) ∧
      findPR s'.prs prID = some row := by
  have hstep :=
    @createPullRequest_success s prID prName authorID σ now author hauthor hfresh
  set candidates :=
    activeReviewers (listTeamMembers s author.teamName) authorID [] with hcand
  set row : PullRequest :=
    { id := prID, name := prName, authorID := authorID, status := .Open,
      assignedReviewers := selectRandom candidates 2 σ,
      createdAt := some now, mergedAt := none } with hrow
  have hperm : (σ candidates).Perm candidates := hσ candidates
  have hlen : row.assignedReviewers.length = min 2 candidates.length :=
    selectRandom_length hperm
  have hmem : ∀ x ∈ row.assignedReviewers, x ∈ candidates :=
    fun x hx => selectRandom_mem hperm hx
  refine ⟨_, row, hstep, rfl, hlen, ?_, ?_, ?_, ?_, ?_, ?_, ?_⟩
  · intro h2; omega
  · intro h1; omega
  · intro h0
    have : row.assignedReviewers.length = 0 := by omega
    exact List.length_eq_zero.mp this
  · exact selectRandom_nodup hperm (activeReviewers_nodup (listTeamMembers_ids_nodup hids _))
  · intro hmemauthor
    obtain ⟨u, _, _, _, hne, _⟩ := mem_activeReviewers.mp (hmem _ hmemauthor)
    exact hne rfl
  · intro x hx
    obtain ⟨u, hu, huid, hact, _, _⟩ := mem_activeReviewers.mp (hmem x hx)
    exact ⟨u, hu, huid, hact⟩
  · exact findPR_append hfresh rfl

/-- Closed instance of `create_reviewer_counts` on `sampleStore` (two
eligible members, hence two distinct reviewers). -/
theorem create_reviewer_counts_witness :
    ∃ s' row,
      createPullRequest sampleStore "pr2" "fix" "u1" id 9 = (s', .ok row) ∧
      row.status = .Open ∧
      row.assignedReviewers.length =
        min 2 (activeReviewers (listTeamMembers sampleStore "backend") "u1" []).length ∧
      (2 ≤ (activeReviewers (listTeamMembers sampleStore "backend") "u1" []).length →
        row.assignedReviewers.length = 2) ∧
      ((activeReviewers (listTeamMembers sampleStore "backend") "u1" []).length = 1 →
        row.assignedReviewers.length = 1) ∧
      ((activeReviewers (listTeamMembers sampleStore "backend") "u1" []).length = 0 →
        row.assignedReviewers = []) ∧
      row.assignedReviewers.Nodup ∧
      "u1" ∉ row.assignedReviewers ∧
      (∀ x ∈ row.assignedReviewers,
        ∃ u, u ∈ listTeamMembers sampleStore "backend" ∧ u.userID = x ∧ u.isActive = true) ∧
      findPR s'.prs "pr2" = some row :=
  create_reviewer_counts sampleStore "pr2" "fix" "u1" id 9
    { userID := "u1", username := "alice", teamName := "backend", isActive := true }
    (by decide) (by decide) (by decide) (fun l => List.Perm.refl l)

/-- C5: `CreatePullRequest` fails with `NotFound` when the author does
not resolve to an existing user and with `AlreadyExists` (`ErrPRExists`)
when the pull request id already exists; both abort the transaction and
leave the store unchanged. -/
theorem create_error_cases :
    (∀ (s : StoreState) (prID prName authorID : String)
        (σ : List String → List String) (now : Nat),
        findUser s.users authorID = none →
        createPullRequest s prID prName authorID σ now = (s, .error .NotFound)) ∧
    (∀ (s : StoreState) (prID prName authorID : String)
        (σ : List String → List String) (now : Nat) (author : User) (old : PullRequest),
        findUser s.users authorID = some author →
        findPR s.prs prID = some old →
        createPullRequest s prID prName authorID σ now = (s, .error .PRExists)) := by
  constructor
  · intro s prID prName authorID σ now h
    simp [createPullRequest, createPullRequestBody, getUserByID, h, mapError]
  · intro s prID prName authorID σ now author old hauthor hold
    simp [createPullRequest, createPullRequestBody, getUserByID, hauthor, createPR, hold]

/-- Closed instance of `create_error_cases` on `sampleStore`. -/
theorem create_error_cases_witness :
    createPullRequest sampleStore "pr9" "x" "ghost" id 1 = (sampleStore, .error .NotFound) ∧
    createPullRequest sampleStore "pr1" "x" "u1" id 1 = (sampleStore, .error .PRExists) :=
  ⟨create_error_cases.1 sampleStore "pr9" "x" "ghost" id 1 (by decide),
   create_error_cases.2 sampleStore "pr1" "x" "u1" id 1
     { userID := "u1", username := "alice", teamName := "backend", isActive := true }
     { id := "pr1", name := "feat", authorID := "u1", status := .Open,
       assignedReviewers := ["u2"], createdAt := some 5, mergedAt := none }
     (by decide) (by decide)⟩

/-! ### In-place replacement of a reviewer -/

/-- Replacement preserves the list length. -/
theorem length_replaceFirst (l : List String) (old new : String) :
    (replaceFirst l old new).length = l.length := by
  induction l with
  | nil => rfl
  | cons r rest ih =>
    by_cases hr : r = old <;> simp [replaceFirst, hr, ih]

/-- Replacement rewrites the first occurrence in place: the result is
`l.set i new` for the first index `i` holding `old`. -/
theorem replaceFirst_eq_set {l : List String} {old : String} (new : String)
    (h : old ∈ l) :
    ∃ i, ∃ hi : i < l.length, l.get ⟨i, hi⟩ = old ∧
      replaceFirst l old new = l.set i new := by
  induction l with
  | nil => cases h
  | cons r rest ih =>
    by_cases hr : r = old
    · exact ⟨0, by simp, by simpa using hr, by simp [replaceFirst, hr]⟩
    · have hmem : old ∈ rest := by
        rcases List.mem_cons.mp h with h' | h'
        · exact absurd h'.symm hr
        · exact h'
      obtain ⟨i, hi, hget, heq⟩ := ih hmem
      exact ⟨i + 1, by simpa using Nat.succ_lt_succ hi, by simpa using hget,
        by simp [replaceFirst, hr, heq]⟩

/-- Members of the replaced list come from the original list or are the
new entry. -/
theorem mem_replaceFirst {l : List String} {old new x : String}
    (h : x ∈ replaceFirst l old new) : x ∈ l ∨ x = new := by
  induction l with
  | nil => cases h
  | cons r rest ih =>
    by_cases hr : r = old
    · rcases List.mem_cons.mp (by simpa [replaceFirst, hr] using h) with h' | h'
      · exact Or.inr h'
      · exact Or.inl (List.mem_cons_of_mem _ h')
    · rcases List.mem_cons.mp (by simpa [replaceFirst, hr] using h) with h' | h'
      · exact Or.inl (h' ▸ List.mem_cons_self _ _)
      · rcases ih h' with h'' | h''
        · exact Or.inl (List.mem_cons_of_mem _ h'')
        · exact Or.inr h''

/-- The new entry is present after replacing an occurring entry. -/
theorem new_mem_replaceFirst {l : List String} {old : String} (new : String)
    (h : old ∈ l) : new ∈ replaceFirst l old new := by
  induction l with
  | nil => cases h
  | cons r rest ih =>
    by_cases hr : r = old
    · simp [replaceFirst, hr]
    · have hmem : old ∈ rest := by
        rcases List.mem_cons.mp h with h' | h'
        · exact absurd h'.symm hr
        · exact h'
      simp [replaceFirst, hr, ih hmem]

/-- On a duplicate-free list the replaced entry is gone afterwards. -/
theorem old_not_mem_replaceFirst {l : List String} {old new : String}
    (hnd : l.Nodup) (hne : old ≠ new) : old ∉ replaceFirst l old new := by
  induction l with
  | nil => simp [replaceFirst]
  | cons r rest ih =>
    obtain ⟨hhead, htail⟩ := List.nodup_cons.mp hnd
    by_cases hr : r = old
    · subst hr
      rw [replaceFirst, if_pos (beq_self_eq_true r)]
      intro hmem
      rcases List.mem_cons.mp hmem with h' | h'
      · exact hne h'
      · exact hhead h'
    · rw [replaceFirst, if_neg (by simpa using hr)]
      intro hmem
      rcases List.mem_cons.mp hmem with h' | h'
      · exact hr h'.symm
      · exact ih htail h'

/-- Replacement by a fresh entry keeps the list duplicate-free. -/
theorem nodup_replaceFirst {l : List String} {old new : String}
    (hnd : l.Nodup) (hnew : new ∉ l) : (replaceFirst l old new).Nodup := by
  induction l with
  | nil => simp [replaceFirst]
  | cons r rest ih =>
    obtain ⟨hhead, htail⟩ := List.nodup_cons.mp hnd
    have hnewtail : new ∉ rest := fun h => hnew (List.mem_cons_of_mem _ h)
    by_cases hr : r = old
    · subst hr
      rw [replaceFirst, if_pos (beq_self_eq_true r)]
      exact List.nodup_cons.mpr ⟨hnewtail, htail⟩
    · rw [replaceFirst, if_neg (by simpa using hr)]
      refine List.nodup_cons.mpr ⟨?_, ih htail hnewtail⟩
      intro hmem
      rcases mem_replaceFirst hmem with h' | h'
      · exact hhead h'
      · exact hnew (h' ▸ List.mem_cons_self _ _)

/-- Successful path of `ReassignReviewer`: open pull request, old user
assigned, a replacement selected — the matching list entry is replaced
in place and the row persisted. -/
theorem reassignReviewer_success {s : StoreState} {prID oldUserID : String}
    {σ : List String → List String} {pr : PullRequest} {oldUser : User}
    {rep : String} {rest : List String}
    (h : findPR s.prs prID = some pr) (hopen : pr.status = .Open)
    (hu : findUser s.users oldUserID = some oldUser)
    (hass : oldUserID ∈ pr.assignedReviewers)
    (hsel : selectRandom (activeReviewersFromTeam s oldUser.teamName pr.authorID
        oldUserID pr.assignedReviewers) 1 σ = rep :: rest) :
    reassignReviewer s prID oldUserID σ =
      ({ s with prs := s.prs.map (fun p => if p.id == prID then
            { pr with assignedReviewers := replaceFirst pr.assignedReviewers oldUserID rep }
          else p) },
       .ok ({ pr with assignedReviewers := replaceFirst pr.assignedReviewers oldUserID rep },
            rep)) := by
  have hid : pr.id = prID := findPR_id h
  have hfind2 : findPR s.prs
      ({ pr with assignedReviewers :=
          replaceFirst pr.assignedReviewers oldUserID rep } : PullRequest).id = some pr := by
    show findPR s.prs pr.id = some pr
    rw [hid]; exact h
  simp [reassignReviewer, reassignReviewerBody, getPRByIDForUpdate, getUserByID,
    isReviewerAssigned, h, hopen, hu, hass, hsel, updatePR, hfind2, hid]

/-- C2: on an OPEN pull request with `oldUserID` assigned and an
eligible replacement available, `ReassignReviewer` succeeds; the
resulting reviewer list keeps its length, loses `oldUserID`, gains
exactly one new eligible member at the position `oldUserID` occupied,
has no duplicates; the replacement is an active member of the replaced
reviewer's team, is neither the author nor any previously assigned
reviewer, and the returned identifier is the new list entry. -/
theorem reassign_success (s : StoreState) (prID oldUserID : String)
    (σ : List String → List String) (pr : PullRequest) (oldUser : User)
    (h : findPR s.prs prID = some pr) (hopen : pr.status = .Open)
    (hu : findUser s.users oldUserID = some oldUser)
    (hass : oldUserID ∈ pr.assignedReviewers)
    (hnd : pr.assignedReviewers.Nodup)
    (hσ : ∀ l, (σ l).Perm l)
    (hcand : activeReviewersFromTeam s oldUser.teamName pr.authorID oldUserID
        pr.assignedReviewers ≠ []) :
    ∃ s' updated rep,
      reassignReviewer s prID oldUserID σ = (s', .ok (updated, rep)) ∧
      updated.assignedReviewers.length = pr.assignedReviewers.length ∧
      oldUserID ∉ updated.assignedReviewers ∧
      updated.assignedReviewers.Nodup ∧
      rep ∈ updated.assignedReviewers ∧
      rep ∉ pr.assignedReviewers ∧
      rep ≠ pr.authorID ∧ rep ≠ oldUserID ∧
      (∃ u, u ∈ listTeamMembers s oldUser.teamName ∧ u.userID = rep ∧
        u.isActive = true) ∧
      (∃ i, ∃ hi : i < pr.assignedReviewers.length,
        pr.assignedReviewers.get ⟨i, hi⟩ = oldUserID ∧
        updated.assignedReviewers = pr.assignedReviewers.set i rep) ∧
      findPR s'.prs prID = some updated := by
  set candidates := activeReviewersFromTeam s oldUser.teamName pr.authorID oldUserID
    pr.assignedReviewers with hcanddef
  have hperm : (σ candidates).Perm candidates := hσ candidates
  have hlen1 : (selectRandom candidates 1 σ).length = min 1 candidates.length :=
    @selectRandom_length candidates 1 σ hperm
  have hcandlen : 1 ≤ candidates.length :=
    Nat.succ_le_of_lt (List.length_pos.mpr hcand)
  cases hsel : selectRandom candidates 1 σ with
  | nil =>
    rw [hsel] at hlen1
    simp at hlen1
    omega
  | cons rep rest =>
    have hrepcand : rep ∈ candidates :=
      selectRandom_mem hperm (hsel ▸ List.mem_cons_self rep rest)
    have hrepfacts := mem_activeReviewers.mp (by
      rw [hcanddef, activeReviewersFromTeam] at hrepcand
      exact hrepcand)
    obtain ⟨u, humem, huid, hact, hneauthor, hnotex⟩ := hrepfacts
    have hnotassigned : rep ∉ pr.assignedReviewers := fun hmem =>
      hnotex (List.mem_append.mpr (Or.inl hmem))
    have hneold : rep ≠ oldUserID := fun heq =>
      hnotex (List.mem_append.mpr (Or.inr (by simp [heq])))
    have hstep := reassignReviewer_success h hopen hu hass hsel
    set newRev := replaceFirst pr.assignedReviewers oldUserID rep with hnewrev
    set updated : PullRequest := { pr with assignedReviewers := newRev } with hupd
    have hupdid : updated.id = prID := by rw [hupd]; show pr.id = prID; exact findPR_id h
    obtain ⟨i, hi, hget, hseteq⟩ := replaceFirst_eq_set rep hass
    refine ⟨_, updated, rep, hstep, ?_, ?_, ?_, ?_, hnotassigned, hneauthor, hneold,
      ⟨u, humem, huid, hact⟩, ⟨i, hi, hget, ?_⟩, findPR_map_update hupdid h⟩
    · show newRev.length = pr.assignedReviewers.length
      exact length_replaceFirst _ _ _
    · show oldUserID ∉ newRev
      exact old_not_mem_replaceFirst hnd (fun heq => hneold heq.symm)
    · show newRev.Nodup
      exact nodup_replaceFirst hnd hnotassigned
    · show rep ∈ newRev
      exact new_mem_replaceFirst rep hass
    · show newRev = pr.assignedReviewers.set i rep
      exact hseteq

/-- Closed instance of `reassign_success` on `sampleStore` (reviewer
`u2` replaced, the only candidate being `u3`). -/
theorem reassign_success_witness :
    ∃ s' updated rep,
      reassignReviewer sampleStore "pr1" "u2" id = (s', .ok (updated, rep)) ∧
      updated.assignedReviewers.length = (["u2"] : List String).length ∧
      "u2" ∉ updated.assignedReviewers ∧
      updated.assignedReviewers.Nodup ∧
      rep ∈ updated.assignedReviewers ∧
      rep ∉ (["u2"] : List String) ∧
      rep ≠ "u1" ∧ rep ≠ "u2" ∧
      (∃ u, u ∈ listTeamMembers sampleStore "backend" ∧ u.userID = rep ∧
        u.isActive = true) ∧
      (∃ i, ∃ hi : i < (["u2"] : List String).length,
        (["u2"] : List String).get ⟨i, hi⟩ = "u2" ∧
        updated.assignedReviewers = (["u2"] : List String).set i rep) ∧
      findPR s'.prs "pr1" = some updated := by
  have := reassign_success sampleStore "pr1" "u2" id
    { id := "pr1", name := "feat", authorID := "u1", status := .Open,
      assignedReviewers := ["u2"], createdAt := some 5, mergedAt := none }
    { userID := "u2", username := "bob", teamName := "backend", isActive := true }
    (by decide) (by decide) (by decide) (by decide) (by decide)
    (fun l => List.Perm.refl l) (by decide)
  simpa using this

/-! ### Team creation and the user's team reference -/

/-- A user row found under a key is in the table (analogue of
`findPR_mem`). -/
theorem findUser_map {us : List User} {uid : String} {g : User → User}
    (hg : ∀ v, (g v).userID = v.userID) :
    findUser (us.map g) uid = (findUser us uid).map g := by
  unfold findUser
  have hpg : ((fun u : User => u.userID == uid) ∘ g) = fun u : User => u.userID == uid := by
    funext v
    simp [Function.comp, hg v]
  rw [List.find?_map, hpg]

/-- Appending a row with a fresh key leaves other lookups unchanged. -/
theorem findUser_append_ne {us : List User} {uid : String} {row : User}
    (hne : row.userID ≠ uid) :
    findUser (us ++ [row]) uid = findUser us uid := by
  induction us with
  | nil =>
    have : (row.userID == uid) = false := by simp [hne]
    simp [findUser, List.find?, this]
  | cons u rest ih =>
    by_cases hu : u.userID = uid
    · rw [List.cons_append, findUser, List.find?_cons_of_pos _ (by simp [hu]),
        findUser, List.find?_cons_of_pos _ (by simp [hu])]
    · rw [List.cons_append, findUser, List.find?_cons_of_neg _ (by simp [hu]),
        findUser, List.find?_cons_of_neg _ (by simp [hu])]
      exact ih

/-- The member batch's upsert with a matching id overwrites (or inserts)
the row, carrying the new team name. -/
theorem upsert_hit {us : List User} {t : String} {m : TeamMember} {uid : String}
    (hm : m.userID = uid) :
    findUser (upsertUser us t m) uid =
      some { userID := m.userID, username := m.username, teamName := t,
             isActive := m.isActive } := by
  unfold upsertUser
  split
  · next hany =>
    have hg : ∀ v : User,
        ((if v.userID == m.userID then
            ({ userID := m.userID, username := m.username, teamName := t,
               isActive := m.isActive } : User) else v)).userID = v.userID := by
      intro v
      by_cases hv : v.userID = m.userID <;> simp [hv]
    rw [findUser_map hg]
    have hsome : (findUser us uid).isSome := by
      obtain ⟨u, hu, hup⟩ := List.any_eq_true.mp hany
      rw [findUser, List.find?_isSome]
      exact ⟨u, hu, by simpa [hm] using hup⟩
    cases hf : findUser us uid with
    | none => rw [hf] at hsome; cases hsome
    | some u₀ =>
      have : u₀.userID = uid := by
        have := List.find?_some hf
        simpa using this
      simp [this, hm]
  · next hany =>
    have hnone : List.find? (fun u : User => u.userID == uid) us = none := by
      rw [List.find?_eq_none]
      intro u hu hup
      exact hany (List.any_eq_true.mpr ⟨u, hu, by simpa [hm] using hup⟩)
    rw [findUser, List.find?_append, hnone]
    simp [List.find?, hm]

/-- The upsert for a different id leaves a lookup unchanged. -/
theorem upsert_miss {us : List User} {t : String} {m : TeamMember} {uid : String}
    (hm : m.userID ≠ uid) :
    findUser (upsertUser us t m) uid = findUser us uid := by
  unfold upsertUser
  split
  · have hg : ∀ v : User,
        ((if v.userID == m.userID then
            ({ userID := m.userID, username := m.username, teamName := t,
               isActive := m.isActive } : User) else v)).userID = v.userID := by
      intro v
      by_cases hv : v.userID = m.userID <;> simp [hv]
    rw [findUser_map hg]
    cases hf : findUser us uid with
    | none => rfl
    | some u₀ =>
      have hid : u₀.userID = uid := by
        have := List.find?_some hf
        simpa using this
      have : ¬ u₀.userID = m.userID := by rw [hid]; exact fun h => hm h.symm
      simp [this]
  · exact findUser_append_ne (by simpa using hm)

/-- Folding the member batch over ids all different from `uid` leaves
the lookup of `uid` unchanged. -/
theorem foldl_upsert_miss {ms : List TeamMember} {us : List User} {t uid : String}
    (hmiss : ∀ m ∈ ms, m.userID ≠ uid) :
    findUser (ms.foldl (fun acc m => upsertUser acc t m) us) uid = findUser us uid := by
  induction ms generalizing us with
  | nil => rfl
  | cons m ms ih =>
    rw [List.foldl_cons, ih (fun m' hm' => hmiss m' (List.mem_cons_of_mem _ hm')),
      upsert_miss (hmiss m (List.mem_cons_self _ _))]

/-- If some member of the batch has id `uid`, after the batch the row
for `uid` carries the new team name. -/
theorem foldl_upsert_team {ms : List TeamMember} {us : List User} {t uid : String}
    (hhit : ∃ m ∈ ms, m.userID = uid) :
    ∃ u, findUser (ms.foldl (fun acc m => upsertUser acc t m) us) uid = some u ∧
      u.teamName = t := by
  induction ms generalizing us with
  | nil =>
    obtain ⟨m, hm, _⟩ := hhit
    cases hm
  | cons m ms ih =>
    rw [List.foldl_cons]
    by_cases hex : ∃ m' ∈ ms, m'.userID = uid
    · exact ih hex
    · obtain ⟨m₀, hm₀, hid₀⟩ := hhit
      have hmuid : m.userID = uid := by
        rcases List.mem_cons.mp hm₀ with h | h
        · exact h ▸ hid₀
        · exact absurd ⟨m₀, h, hid₀⟩ hex
      have hmiss : ∀ m' ∈ ms, m'.userID ≠ uid := fun m' hm' heq => hex ⟨m', hm', heq⟩
      rw [foldl_upsert_miss hmiss, upsert_hit hmuid]
      exact ⟨_, rfl, rfl⟩

/-- A successful insert leaves the `users` table unchanged. -/
theorem createPR_users {s : StoreState} {pr : PullRequest} {now : Nat}
    {s' : StoreState} {row : PullRequest}
    (h : createPR s pr now = .ok (s', row)) : s'.users = s.users := by
  unfold createPR at h
  split at h
  · exact Except.noConfusion h
  · split at h
    · exact Except.noConfusion h
    · injection h with h1
      injection h1 with h2 h3
      subst h2
      rfl

/-- A successful row update leaves the `users` table unchanged. -/
theorem updatePR_users {s : StoreState} {pr : PullRequest}
    {s' : StoreState} {row : PullRequest}
    (h : updatePR s pr = .ok (s', row)) : s'.users = s.users := by
  unfold updatePR at h
  split at h
  · exact Except.noConfusion h
  · injection h with h1
    injection h1 with h2 h3
    subst h2
    rfl

/-- The transaction body of `CreatePullRequest` never writes the
`users` table. -/
theorem createPullRequestBody_users {s : StoreState} {prID prName authorID : String}
    {σ : List String → List String} {now : Nat} {s' : StoreState} {row : PullRequest}
    (h : createPullRequestBody s prID prName authorID σ now = .ok (s', row)) :
    s'.users = s.users := by
  unfold createPullRequestBody getUserByID at h
  try dsimp only at h
  repeat' split at h
  any_goals exact Except.noConfusion h
  exact createPR_users h

/-- The transaction body of `MergePullRequest` never writes the `users`
table. -/
theorem mergePullRequestBody_users {s : StoreState} {prID : String} {now : Nat}
    {s' : StoreState} {row : PullRequest}
    (h : mergePullRequestBody s prID now = .ok (s', row)) :
    s'.users = s.users := by
  unfold mergePullRequestBody getPRByIDForUpdate at h
  try dsimp only at h
  repeat' split at h
  any_goals exact Except.noConfusion h
  all_goals first
    | exact updatePR_users h
    | (injection h with h1
       injection h1 with h2 h3
       subst h2
       rfl)

/-- The transaction body of `ReassignReviewer` never writes the `users`
table. -/
theorem reassignReviewerBody_users {s : StoreState} {prID oldUserID : String}
    {σ : List String → List String} {s' : StoreState} {row : PullRequest} {rep : String}
    (h : reassignReviewerBody s prID oldUserID σ = .ok (s', row, rep)) :
    s'.users = s.users := by
  unfold reassignReviewerBody getPRByIDForUpdate getUserByID at h
  try dsimp only at h
  repeat' split at h
  any_goals exact Except.noConfusion h
  injection h with h1
  injection h1 with h2 h3
  subst h2
  exact updatePR_users (by assumption)

/-- Team-creation payloads moving user `u1` between teams `A` and `B`. -/
def teamA : Team :=
  { teamName := "A", members := [{ userID := "u1", username := "alice", isActive := true }] }

/-- Payload naming the existing user `u1` under a new team `B`. -/
def teamB : Team :=
  { teamName := "B", members := [{ userID := "u1", username := "alice", isActive := true }] }

/-- The empty store. -/
def emptyStore : StoreState := { teams := [], users := [], prs := [] }

/-- C8 counterexample: a user's team reference is NOT non-transferable.
After `CreateTeam A [u1]` the user `u1` belongs to team `A`; the
public-API operation `CreateTeam B [u1]` then succeeds and moves `u1` to
team `B` (the member batch is an upsert whose conflict clause sets
`team_name`), so an operation of the public API changed an existing
user's team reference. -/
theorem team_transfer_counterexample :
    (findUser (applyOp emptyStore (.createTeam teamA)).users "u1").map
        (fun u => u.teamName) = some "A" ∧
    (findUser (applyOp (applyOp emptyStore (.createTeam teamA))
        (.createTeam teamB)).users "u1").map (fun u => u.teamName) = some "B" := by
  constructor <;> decide

/-- C8 amended: a user's team reference is preserved by every public
state-changing operation except `CreateTeam`: activity toggling and all
pull-request operations never change any user's team, while `CreateTeam`
with a fresh team name whose member list names a user id (re)assigns
that id's row to the new team via the upsert. -/
theorem team_reference_ops :
    (∀ (s : StoreState) (uid uid2 : String) (b : Bool) (u : User),
        findUser s.users uid = some u →
        ∃ u', findUser (applyOp s (.setUserActive uid2 b)).users uid = some u' ∧
          u'.teamName = u.teamName) ∧
    (∀ (s : StoreState) (prID prName authorID : String)
        (σ : List String → List String) (now : Nat),
        (applyOp s (.createPR prID prName authorID σ now)).users = s.users) ∧
    (∀ (s : StoreState) (prID : String) (now : Nat),
        (applyOp s (.mergePR prID now)).users = s.users) ∧
    (∀ (s : StoreState) (prID oldUserID : String) (σ : List String → List String),
        (applyOp s (.reassign prID oldUserID σ)).users = s.users) ∧
    (∀ (s : StoreState) (team : Team) (m : TeamMember),
        team.teamName ∉ s.teams → m ∈ team.members →
        ∃ u', findUser (applyOp s (.createTeam team)).users m.userID = some u' ∧
          u'.teamName = team.teamName) := by
  refine ⟨?_, ?_, ?_, ?_, ?_⟩
  · intro s uid uid2 b u hu
    show ∃ u', findUser (setUserActiveStatus s uid2 b).1.users uid = some u' ∧
      u'.teamName = u.teamName
    unfold setUserActiveStatus setUserActiveStatusRepo
    cases hf2 : findUser s.users uid2 with
    | none => exact ⟨u, hu, rfl⟩
    | some u2 =>
      have hu2id : u2.userID = uid2 := by
        have := List.find?_some hf2
        simpa using this
      have hg : ∀ v : User,
          ((if v.userID == uid2 then ({ u2 with isActive := b } : User) else v)).userID =
            v.userID := by
        intro v
        by_cases hv : v.userID = uid2 <;> simp [hv, hu2id]
      have hmap := @findUser_map s.users uid _ hg
      rw [hu] at hmap
      by_cases hv : u.userID = uid2
      · have huid : u.userID = uid := by
          have := List.find?_some hu
          simpa using this
        have hu2u : u2 = u := by
          rw [huid] at hv
          subst hv
          rw [hu] at hf2
          exact (Option.some.inj hf2).symm
        subst hu2u
        refine ⟨{ u2 with isActive := b }, ?_, rfl⟩
        simpa [hv] using hmap
      · refine ⟨u, ?_, rfl⟩
        simpa [hv] using hmap
  · intro s prID prName authorID σ now
    show (createPullRequest s prID prName authorID σ now).1.users = s.users
    unfold createPullRequest
    cases hb : createPullRequestBody s prID prName authorID σ now with
    | error e =>
      cases e with
      | repo r => cases r <;> rfl
      | dom d => rfl
    | ok p =>
      obtain ⟨s', row⟩ := p
      exact createPullRequestBody_users hb
  · intro s prID now
    show (mergePullRequest s prID now).1.users = s.users
    unfold mergePullRequest
    cases hb : mergePullRequestBody s prID now with
    | error e => rfl
    | ok p =>
      obtain ⟨s', row⟩ := p
      exact mergePullRequestBody_users hb
  · intro s prID oldUserID σ
    show (reassignReviewer s prID oldUserID σ).1.users = s.users
    unfold reassignReviewer
    cases hb : reassignReviewerBody s prID oldUserID σ with
    | error e => rfl
    | ok p =>
      obtain ⟨s', row, rep⟩ := p
      exact reassignReviewerBody_users hb
  · intro s team m hfresh hmem
    show ∃ u', findUser (createTeam s team).1.users m.userID = some u' ∧
      u'.teamName = team.teamName
    unfold createTeam createTeamTx
    rw [if_neg (by simpa using hfresh)]
    exact foldl_upsert_team ⟨m, hmem, rfl⟩

/-- Closed instance of `team_reference_ops` on concrete stores. -/
theorem team_reference_ops_witness :
    (∃ u', findUser (applyOp sampleStore (.setUserActive "u2" false)).users "u2" =
        some u' ∧ u'.teamName = "backend") ∧
    (applyOp sampleStore (.createPR "pr7" "n" "u1" id 3)).users = sampleStore.users ∧
    (applyOp sampleStore (.mergePR "pr1" 3)).users = sampleStore.users ∧
    (applyOp sampleStore (.reassign "pr1" "u2" id)).users = sampleStore.users ∧
    (∃ u', findUser (applyOp sampleStore (.createTeam teamB)).users "u1" = some u' ∧
        u'.teamName = "B") :=
  ⟨team_reference_ops.1 sampleStore "u2" "u2" false
      { userID := "u2", username := "bob", teamName := "backend", isActive := true }
      (by decide),
   team_reference_ops.2.1 sampleStore "pr7" "n" "u1" id 3,
   team_reference_ops.2.2.1 sampleStore "pr1" 3,
   team_reference_ops.2.2.2.1 sampleStore "pr1" "u2" id,
   team_reference_ops.2.2.2.2 sampleStore teamB
      { userID := "u1", username := "alice", isActive := true }
      (by decide) (by decide)⟩

end ReviewService
